import Mathlib

/-!
Verification of the rskill discovery-and-cleanup engine.

This file gives a shallow embedding, in Lean, of the core logic of the
repository: the project data model (`project.rs`), the scanner
(`scanner.rs`), the folder scanner (`utils/search.rs`), the size / removal
utilities (`utils.rs`), and the interactive controller's deletion
operations (`ui.rs`).  Filesystem-dependent inputs (the sequence of walk
entries, metadata read outcomes, directory trees) are passed in explicitly;
every function mirrors the control flow of the corresponding Rust function.

Strings that only ever get compared for equality are modelled as `String`;
strings that the Rust code slices and trims (the manifest text) are
modelled as `List Char` so that every operation is a structural recursion
the kernel can evaluate.
-/

namespace Rskill

/-- A filesystem path, as its list of components. -/
abbrev Path := List String

/-- project.rs: `enum ArtifactType`. -/
inductive ArtifactType where
  | Target
  | IncrementalCompilation
  | Dependencies
  | Examples
  | Tests
  | Benchmarks
  | CargoRegistry
  | CargoGitCache
  | CargoConfigCache
deriving DecidableEq

/-- project.rs: `struct BuildArtifact`.  Timestamps are seconds as `Int`. -/
structure BuildArtifact where
  path : Path
  artifact_type : ArtifactType
  size : Nat
  last_modified : Option Int
deriving DecidableEq

/-- project.rs: `struct RustProject`. -/
structure RustProject where
  path : Path
  name : String
  target_dir : Option Path
  target_size : Nat
  last_modified : Option Int
  workspace_root : Bool
  has_lock_file : Bool
  dependencies_count : Nat
  build_artifacts : List BuildArtifact
  cargo_cache_size : Nat
deriving DecidableEq

/-- project.rs: `RustProject::total_cleanable_size`. -/
def RustProject.total_cleanable_size (p : RustProject) : Nat :=
  p.target_size + p.cargo_cache_size

/-- project.rs: `RustProject::days_since_modified`.  `now` is the current
time in seconds; chrono's `num_days` divides the signed second count by
86400 truncating toward zero, which is `Int.tdiv`. -/
def RustProject.days_since_modified (p : RustProject) (now : Int) : Option Int :=
  p.last_modified.map (fun dt => Int.tdiv (now - dt) 86400)

/-- project.rs: `RustProject::is_likely_active` — modified within the last
30 days, or unknown modification time (assumed active for safety). -/
def RustProject.is_likely_active (p : RustProject) (now : Int) : Bool :=
  ((p.days_since_modified now).map (fun days => decide (days < 30))).getD true

/-- Rust `i64::cmp` (`b_time.cmp(&a_time)` in the sort comparator). -/
def cmpInt (a b : Int) : Ordering :=
  if a < b then .lt else if a = b then .eq else .gt

/-- scanner.rs: the `SortBy::LastMod` comparator of `sort_projects`
(lines 291-298), on the two `last_modified` fields. -/
def cmpLastMod : Option Int → Option Int → Ordering
  | some a_time, some b_time => cmpInt b_time a_time
  | some _, none => .lt
  | none, some _ => .gt
  | none, none => .eq

/-- The "not greater" relation induced by the `LastMod` comparator; Rust's
`sort_by` produces a list sorted with respect to this relation. -/
def lastModLe (a b : RustProject) : Prop :=
  cmpLastMod a.last_modified b.last_modified ≠ .gt

instance : DecidableRel lastModLe := fun a b => by
  unfold lastModLe; infer_instance

/-- scanner.rs: `sort_projects` in the `SortBy::LastMod` branch, modelled
with a stable sort with respect to the comparator. -/
def sort_projects_lastmod (projects : List RustProject) : List RustProject :=
  List.insertionSort lastModLe projects

lemma cmpLastMod_le_iff (x y : Option Int) :
    cmpLastMod x y ≠ .gt ↔
      ((x = none → y = none) ∧ ∀ ta tb, x = some ta → y = some tb → tb ≤ ta) := by
  cases x with
  | none =>
    cases y with
    | none => simp [cmpLastMod]
    | some b => simp [cmpLastMod]
  | some a =>
    cases y with
    | none => simp [cmpLastMod]
    | some b =>
      simp only [cmpLastMod, cmpInt]
      constructor
      · intro h
        refine ⟨by simp, ?_⟩
        intro ta tb hta htb
        injection hta with hta; injection htb with htb
        subst hta; subst htb
        by_contra hlt
        split at h
        · omega
        · split at h
          · omega
          · exact h rfl
      · rintro ⟨-, h⟩
        have hba := h a b rfl rfl
        split
        · simp
        · split
          · simp
          · omega

lemma cmpLastMod_gt_asymm (x y : Option Int) :
    cmpLastMod x y = .gt → cmpLastMod y x ≠ .gt := by
  cases x with
  | none =>
    cases y with
    | none => simp [cmpLastMod]
    | some b => simp [cmpLastMod]
  | some a =>
    cases y with
    | none => simp [cmpLastMod]
    | some b =>
      simp only [cmpLastMod, cmpInt]
      intro h1
      split_ifs at h1 with hlt heq
      have hab : a < b := by omega
      split_ifs
      simp_all

instance : IsTotal RustProject lastModLe := by
  constructor
  intro a b
  by_cases hab : lastModLe a b
  · exact Or.inl hab
  · right
    unfold lastModLe at *
    rw [ne_eq, not_not] at hab
    exact cmpLastMod_gt_asymm _ _ hab

instance : IsTrans RustProject lastModLe := by
  constructor
  intro a b c hab hbc
  unfold lastModLe at *
  rw [cmpLastMod_le_iff] at *
  obtain ⟨hab1, hab2⟩ := hab
  obtain ⟨hbc1, hbc2⟩ := hbc
  refine ⟨fun ha => hbc1 (hab1 ha), ?_⟩
  intro ta tc hta htc
  cases hb : b.last_modified with
  | none =>
    exfalso
    have := hbc1 hb
    rw [this] at htc; cases htc
  | some tb =>
    exact le_trans (hbc2 tb tc hb htc) (hab2 ta tb hta hb)

/-- C9.  Sorting by last-modified: in the sorted output every record with a
`some` timestamp comes before every record with `none` (pairwise, a `none`
is never followed by a `some`), records with `some` timestamps are in
descending time order, and the comparator treats two missing timestamps as
equal. -/
theorem sort_lastmod_spec (projects : List RustProject) :
    List.Pairwise
      (fun a b => (a.last_modified = none → b.last_modified = none) ∧
        ∀ ta tb, a.last_modified = some ta → b.last_modified = some tb → tb ≤ ta)
      (sort_projects_lastmod projects) ∧
    cmpLastMod none none = .eq := by
  constructor
  · have hs := List.sorted_insertionSort lastModLe projects
    unfold List.Sorted at hs
    refine hs.imp ?_
    intro a b h
    exact (cmpLastMod_le_iff a.last_modified b.last_modified).mp h
  · rfl

lemma tdiv_lt_30_iff (x : Int) : Int.tdiv x 86400 < 30 ↔ x < 2592000 := by
  cases x with
  | ofNat n =>
    show Int.tdiv (Int.ofNat n) (Int.ofNat 86400) < 30 ↔ _
    rw [Int.tdiv]
    simp only [Int.ofNat_eq_coe, Int.ofNat_lt]
    constructor
    · intro h
      have : (n / 86400 : Nat) < 30 := by exact_mod_cast h
      omega
    · intro h
      have : (n : Int) < 2592000 := by exact_mod_cast h
      have : n < 2592000 := by exact_mod_cast this
      have : (n / 86400 : Nat) < 30 := by omega
      exact_mod_cast this
  | negSucc n =>
    show Int.tdiv (Int.negSucc n) (Int.ofNat 86400) < 30 ↔ _
    rw [Int.tdiv]
    simp only [Int.ofNat_eq_coe, Int.negSucc_eq]
    omega

/-- C10.  `is_likely_active` is true exactly when the last-modified
timestamp is absent or the project was modified fewer than 30 days
(2592000 seconds) before `now`. -/
theorem is_likely_active_iff (p : RustProject) (now : Int) :
    p.is_likely_active now = true ↔
      (p.last_modified = none ∨
        ∃ t, p.last_modified = some t ∧ now - t < 30 * 86400) := by
  cases hlm : p.last_modified with
  | none =>
    simp [RustProject.is_likely_active, RustProject.days_since_modified, hlm]
  | some t =>
    have hred : p.is_likely_active now = decide (Int.tdiv (now - t) 86400 < 30) := by
      simp [RustProject.is_likely_active, RustProject.days_since_modified, hlm]
    rw [hred, decide_eq_true_iff, tdiv_lt_30_iff]
    constructor
    · intro h
      exact Or.inr ⟨t, rfl, by omega⟩
    · rintro (h | ⟨t', ht', hlt⟩)
      · cases h
      · injection ht' with ht'
        omega

/-- scanner.rs, `analyze_build_artifacts` lines 208-214: the
artifact-name classification table (the `match dir_name.as_ref()`
expression; every unmatched name hits the `_ => continue` arm and yields no
artifact). -/
def classify_artifact_dir (dir_name : String) : Option ArtifactType :=
  if dir_name = "debug" ∨ dir_name = "release" then some .Target
  else if dir_name = "incremental" then some .IncrementalCompilation
  else if dir_name = "deps" then some .Dependencies
  else if dir_name = "examples" then some .Examples
  else none

deriving instance DecidableEq for Except

/-- One entry yielded by the depth-3 walk of the target directory in
`analyze_build_artifacts` (entries the walk fails to yield are already
dropped by `filter_map(|e| e.ok())` and so do not appear).  `size_result`
is the outcome of `utils::calculate_dir_size(path)` on this entry. -/
structure TargetEntry where
  path : Path
  is_dir : Bool
  size_result : Except Unit Nat
  last_modified : Option Int
deriving DecidableEq

/-- scanner.rs: `analyze_build_artifacts` — keep directory entries whose
name classifies, attaching the computed size (`unwrap_or(0)` on a failed
size computation) and modification time. -/
def analyze_build_artifacts (entries : List TargetEntry) : List BuildArtifact :=
  entries.filterMap (fun e =>
    if e.is_dir then
      match classify_artifact_dir ((e.path.getLast?).getD "") with
      | some t => some ⟨e.path, t, e.size_result.toOption.getD 0, e.last_modified⟩
      | none => none
    else none)

/-- C4 counterexample: the classifier has no arm for the conventional tests
and benchmarks directory names — contrary to the claim, `tests` is not
assigned the tests kind and `benches` is not assigned the benchmarks kind;
a directory entry named `tests` produces no artifact at all. -/
theorem artifact_classification_counterexample :
    classify_artifact_dir "tests" ≠ some ArtifactType.Tests ∧
    classify_artifact_dir "benches" ≠ some ArtifactType.Benchmarks ∧
    analyze_build_artifacts [⟨["proj", "target", "tests"], true, .ok 5, none⟩] = [] := by
  refine ⟨?_, ?_, ?_⟩ <;> decide

/-- C4 (amended).  The classifier assigns the build-output kind to `debug`
and `release`, the incremental-cache kind to `incremental`, the dependency
kind to `deps`, the examples kind to `examples`, and no kind to any other
directory name (in particular the conventional tests and benchmarks names,
whose artifact kinds exist in the data model but are never assigned); every
artifact reported by `analyze_build_artifacts` comes from a directory entry
whose name classifies to that artifact's kind. -/
theorem artifact_classification_spec :
    classify_artifact_dir "debug" = some ArtifactType.Target ∧
    classify_artifact_dir "release" = some ArtifactType.Target ∧
    classify_artifact_dir "incremental" = some ArtifactType.IncrementalCompilation ∧
    classify_artifact_dir "deps" = some ArtifactType.Dependencies ∧
    classify_artifact_dir "examples" = some ArtifactType.Examples ∧
    (∀ n, n ∉ (["debug", "release", "incremental", "deps", "examples"] : List String) →
      classify_artifact_dir n = none) ∧
    (∀ entries a, a ∈ analyze_build_artifacts entries →
      ∃ e ∈ entries, e.is_dir = true ∧ a.path = e.path ∧
        classify_artifact_dir ((e.path.getLast?).getD "") = some a.artifact_type) := by
  refine ⟨by decide, by decide, by decide, by decide, by decide, ?_, ?_⟩
  · intro n hn
    simp only [List.mem_cons, List.not_mem_nil, or_false, not_or] at hn
    obtain ⟨h1, h2, h3, h4, h5⟩ := hn
    simp [classify_artifact_dir, h1, h2, h3, h4, h5]
  · intro entries a ha
    simp only [analyze_build_artifacts] at ha
    rw [List.mem_filterMap] at ha
    obtain ⟨e, he, hfe⟩ := ha
    by_cases hd : e.is_dir = true
    · rw [if_pos hd] at hfe
      cases hcl : classify_artifact_dir ((e.path.getLast?).getD "") with
      | none => rw [hcl] at hfe; cases hfe
      | some t =>
        rw [hcl] at hfe
        injection hfe with hfe
        subst hfe
        exact ⟨e, he, hd, rfl, hcl⟩
    · rw [if_neg hd] at hfe
      cases hfe

/-- C4 witness: the theorem applied at the unmatched name `build` and at a
one-entry walk containing a `debug` directory. -/
theorem artifact_classification_spec_witness :
    classify_artifact_dir "build" = none ∧
    ∃ e ∈ ([⟨["target", "debug"], true, .ok 3, none⟩] : List TargetEntry), e.is_dir = true ∧
      (⟨["target", "debug"], ArtifactType.Target, 3, none⟩ : BuildArtifact).path = e.path ∧
      classify_artifact_dir ((e.path.getLast?).getD "") =
        some (⟨["target", "debug"], ArtifactType.Target, 3, none⟩ : BuildArtifact).artifact_type :=
  ⟨artifact_classification_spec.2.2.2.2.2.1 "build" (by decide),
   artifact_classification_spec.2.2.2.2.2.2 [⟨["target", "debug"], true, .ok 3, none⟩]
     ⟨["target", "debug"], ArtifactType.Target, 3, none⟩ (by decide)⟩

/-- Rust string slices that the scanner trims and splits are modelled as
lists of characters, so that every operation is structural recursion. -/
abbrev RStr := List Char

/-- Rust `str::split(c)`: split at every occurrence of `c`; n separators
give n+1 pieces. -/
def splitOnChar (c : Char) : RStr → List RStr
  | [] => [[]]
  | x :: xs =>
    if x = c then [] :: splitOnChar c xs
    else
      match splitOnChar c xs with
      | [] => [[x]]
      | piece :: rest => (x :: piece) :: rest

/-- Rust `str::lines`, modelled as splitting on the newline character (the
claims never depend on carriage returns or on a trailing newline). -/
def rlines (s : RStr) : List RStr := splitOnChar '\n' s

/-- Rust `str::trim`: strip whitespace from both ends. -/
def rtrim (s : RStr) : RStr :=
  ((s.dropWhile Char.isWhitespace).reverse.dropWhile Char.isWhitespace).reverse

/-- Rust `str::trim_matches(c)`: strip all leading and trailing copies of
`c`. -/
def trimMatchesChar (c : Char) (s : RStr) : RStr :=
  ((s.dropWhile (· = c)).reverse.dropWhile (· = c)).reverse

/-- scanner.rs, `extract_project_name`: the value cleanup
`.trim().trim_matches(Char.quote).trim_matches(Char.apos)`. -/
def cleanNameValue (name_part : RStr) : RStr :=
  trimMatchesChar '\'' (trimMatchesChar '"' (rtrim name_part))

/-- scanner.rs: the line loop of `extract_project_name` (lines 160-175).
`split('=').nth(1)` is the piece between the first and the second `=`; a
line whose trimmed form starts with `name` but contains no `=` yields
`nth(1) = None`, falls through, and the search continues on later lines. -/
def extractNameLoop : List RStr → Option RStr
  | [] => none
  | line :: rest =>
    if ("name".toList).isPrefixOf (rtrim line) then
      match (splitOnChar '=' line).get? 1 with
      | some name_part => some (cleanNameValue name_part)
      | none => extractNameLoop rest
    else extractNameLoop rest

/-- scanner.rs: `extract_project_name`. -/
def extract_project_name (cargo_toml : RStr) : Option RStr :=
  extractNameLoop (rlines cargo_toml)

/-- C5, spec side: a line is name-bearing when its trimmed form begins with
`name` and it contains at least one `=` (two split pieces). -/
def specNamePred (line : RStr) : Bool :=
  ("name".toList).isPrefixOf (rtrim line) &&
    decide (2 ≤ (splitOnChar '=' line).length)

/-- C5, spec side: the value a name-bearing line declares — the segment
between its first and second `=` (the rest of the line when there is no
second `=`), whitespace- and quote-stripped. -/
def specNameValue (line : RStr) : RStr :=
  cleanNameValue (((splitOnChar '=' line).get? 1).getD [])

/-- C5, spec-side definition for the amended claim: the declared name comes
from the first name-bearing line of the manifest. -/
def specExtractName (cargo_toml : RStr) : Option RStr :=
  ((rlines cargo_toml).filter specNamePred).head?.map specNameValue

/-- scanner.rs, `analyze_rust_project` lines 109-116: the declared name with
fallback to the project directory's basename. -/
def project_name_of (cargo_toml : RStr) (dir_basename : RStr) : RStr :=
  (extract_project_name cargo_toml).getD dir_basename

/-- C5 counterexample: on the manifest line `name = "a=b"` the code takes
only the piece between the first and second `=`, producing `a` — not the
whole right-hand side `a=b` that the claim describes. -/
theorem extract_name_counterexample :
    extract_project_name ("name = \"a=b\"".toList) ≠ some ("a=b".toList) ∧
    extract_project_name ("name = \"a=b\"".toList) = some ("a".toList) := by
  refine ⟨?_, ?_⟩ <;> decide

lemma extractNameLoop_eq (ls : List RStr) :
    extractNameLoop ls = ((ls.filter specNamePred).head?.map specNameValue) := by
  induction ls with
  | nil => rfl
  | cons line rest ih =>
    rw [extractNameLoop]
    cases hp : ("name".toList).isPrefixOf (rtrim line) with
    | false =>
      rw [if_neg Bool.false_ne_true]
      have hpred : specNamePred line = false := by
        unfold specNamePred
        rw [hp, Bool.false_and]
      rw [List.filter_cons, hpred]
      simpa using ih
    | true =>
      rw [if_pos rfl]
      cases hv : (splitOnChar '=' line).get? 1 with
      | none =>
        have hlen : (splitOnChar '=' line).length ≤ 1 := List.get?_eq_none.mp hv
        have hpred : specNamePred line = false := by
          unfold specNamePred
          rw [hp, Bool.true_and, decide_eq_false_iff_not]
          omega
        rw [List.filter_cons, hpred]
        simpa using ih
      | some v =>
        have hlen : 2 ≤ (splitOnChar '=' line).length := by
          obtain ⟨hlt, -⟩ := List.get?_eq_some.mp hv
          omega
        have hpred : specNamePred line = true := by
          unfold specNamePred
          rw [hp, Bool.true_and, decide_eq_true_iff]
          exact hlen
        rw [List.filter_cons, hpred]
        simp only [if_true, List.head?_cons, Option.map_some']
        unfold specNameValue
        rw [hv]
        rfl

/-- C5 (amended).  The declared name is taken from the first line whose
trimmed form begins with `name` and that contains an `=`; the value is the
segment of that line between its first and second `=` (the rest of the line
when there is no second `=`), with surrounding whitespace and quote
characters stripped.  A manifest with no `name`-prefixed line yields no
extracted name, and the project name then falls back to the directory
basename. -/
theorem extract_name_spec :
    (∀ s, extract_project_name s = specExtractName s) ∧
    (∀ s, (∀ line ∈ rlines s, ¬ ("name".toList).isPrefixOf (rtrim line) = true) →
      extract_project_name s = none) ∧
    (∀ s basename, extract_project_name s = none → project_name_of s basename = basename) := by
  refine ⟨?_, ?_, ?_⟩
  · intro s
    exact extractNameLoop_eq (rlines s)
  · intro s hs
    rw [extract_project_name, extractNameLoop_eq]
    have : (rlines s).filter specNamePred = [] := by
      rw [List.filter_eq_nil_iff]
      intro line hline
      unfold specNamePred
      simp only [Bool.and_eq_true, not_and]
      intro hp
      exact absurd hp (hs line hline)
    rw [this]
    rfl
  · intro s basename h
    simp [project_name_of, h]

/-- C5 witness: the theorem applied to a one-line manifest with no `name`
line (fallback to basename) and to the refinement equation at a concrete
manifest. -/
theorem extract_name_spec_witness :
    extract_project_name ("[package]".toList) = none ∧
    project_name_of ("[package]".toList) ("mydir".toList) = "mydir".toList ∧
    extract_project_name ("name = \"rskill\"".toList) =
      specExtractName ("name = \"rskill\"".toList) :=
  ⟨extract_name_spec.2.1 ("[package]".toList) (by decide),
   extract_name_spec.2.2 ("[package]".toList) ("mydir".toList)
     (extract_name_spec.2.1 ("[package]".toList) (by decide)),
   extract_name_spec.1 ("name = \"rskill\"".toList)⟩

/-- Rust `str::contains(&str)`: contiguous substring test. -/
def listContainsSub (pat : List Char) : List Char → Bool
  | [] => pat.isEmpty
  | c :: t => pat.isPrefixOf (c :: t) || listContainsSub pat t

/-- scanner.rs: `is_workspace_root` — the manifest text contains the
literal `[workspace]` marker. -/
def is_workspace_root (cargo_toml : RStr) : Bool :=
  listContainsSub ("[workspace]".toList) cargo_toml

/-- scanner.rs: the section-toggling loop of `count_dependencies`. -/
def countDepsLoop : List RStr → Bool → Nat
  | [], _ => 0
  | line :: rest, in_dependencies =>
    let trimmed := rtrim line
    if ("[".toList).isPrefixOf trimmed then
      countDepsLoop rest (("[dependencies".toList).isPrefixOf trimmed
        || ("[dev-dependencies".toList).isPrefixOf trimmed
        || ("[build-dependencies".toList).isPrefixOf trimmed)
    else if in_dependencies && !trimmed.isEmpty && !(("#".toList).isPrefixOf trimmed) then
      1 + countDepsLoop rest in_dependencies
    else countDepsLoop rest in_dependencies

/-- scanner.rs: `count_dependencies`. -/
def count_dependencies (cargo_toml : RStr) : Nat :=
  countDepsLoop (rlines cargo_toml) false

/-- One entry yielded by the recursive walk in `utils::calculate_dir_size`
(utils.rs lines 7-17).  Entries the walk itself fails to read never reach
the loop — they are dropped by `filter_map(|e| e.ok())` (see `walkOk`).
`metadata` is the outcome of `entry.metadata()`. -/
structure WalkFileEntry where
  is_file : Bool
  metadata : Except Unit Nat
deriving DecidableEq

/-- utils.rs, the loop of `calculate_dir_size`:
`total_size += entry.metadata()?.len()` — the `?` propagates a metadata
read failure on a regular-file entry. -/
def calcDirSizeGo : List WalkFileEntry → Nat → Except Unit Nat
  | [], acc => .ok acc
  | e :: rest, acc =>
    if e.is_file then
      match e.metadata with
      | .ok len => calcDirSizeGo rest (acc + len)
      | .error u => .error u
    else calcDirSizeGo rest acc

/-- utils.rs: `calculate_dir_size`. -/
def calculate_dir_size (entries : List WalkFileEntry) : Except Unit Nat :=
  calcDirSizeGo entries 0

/-- The walk stream as the OS produces it: `error` elements are entries the
walk could not yield (unreadable or vanished); `filter_map(|e| e.ok())`
keeps the rest. -/
def walkOk (raw : List (Except Unit WalkFileEntry)) : List WalkFileEntry :=
  raw.filterMap Except.toOption

/-- Total byte size of the regular files with readable metadata. -/
def sumFileSizes : List WalkFileEntry → Nat
  | [] => 0
  | e :: rest =>
    (if e.is_file then (e.metadata.toOption).getD 0 else 0) + sumFileSizes rest

/-- The filesystem-dependent inputs of one `analyze_rust_project` call
(scanner.rs lines 103-158): the candidate directory, the manifest read
outcome, whether `cli.target` exists under the directory, the two walks of
that target directory, lock-file presence, the derived modification time
(`get_last_modified_time` always returns `Ok`), and the cargo-cache size
computation outcome. -/
structure AnalyzeInput where
  dir : Path
  manifest : Except Unit RStr
  target_name : String
  target_exists : Bool
  target_walk : List WalkFileEntry
  target_entries : List TargetEntry
  lock_file : Bool
  last_modified : Option Int
  include_cargo_cache : Bool
  cargo_cache_size : Except Unit Nat
deriving DecidableEq

/-- scanner.rs: `analyze_rust_project`.  The `?` on
`utils::calculate_dir_size(&target_dir)` (line 121) propagates a
size-computation error out of the whole analysis. -/
def analyze_rust_project (inp : AnalyzeInput) : Except Unit RustProject := do
  let cargo_toml_content ← inp.manifest
  let project_name :=
    String.mk (project_name_of cargo_toml_content ((inp.dir.getLast?.getD "").toList))
  let tpair ←
    if inp.target_exists then
      (calculate_dir_size inp.target_walk).map (fun s => (s, true))
    else pure (0, false)
  let build_artifacts :=
    if tpair.2 then analyze_build_artifacts inp.target_entries else []
  let cargo_cache_size ←
    if inp.include_cargo_cache then inp.cargo_cache_size else pure 0
  pure
    { path := inp.dir
      name := project_name
      target_dir := if tpair.2 then some (inp.dir ++ [inp.target_name]) else none
      target_size := tpair.1
      last_modified := inp.last_modified
      workspace_root := is_workspace_root cargo_toml_content
      has_lock_file := inp.lock_file
      dependencies_count := count_dependencies cargo_toml_content
      build_artifacts := build_artifacts
      cargo_cache_size := cargo_cache_size }

/-- scanner.rs: `is_excluded_path` — any component containing any excluded
name as a substring (case-sensitive), or, with `exclude_hidden`, starting
with a dot. -/
def is_excluded_path (path : Path) (excluded_dirs : List String)
    (exclude_hidden : Bool) : Bool :=
  path.any (fun comp =>
    excluded_dirs.any (fun ex => listContainsSub ex.toList comp.toList) ||
      (exclude_hidden && decide (comp.toList.head? = some '.')))

/-- scanner.rs: the walk loop of `find_rust_projects` (lines 50-78), over
the ordered entry paths the non-following walk yields.  `analyze_ok`
abstracts the `if let Ok(project) = Self::analyze_rust_project(..)` test;
the result is the sequence of project directories pushed, in order.
`processed` is `processed_paths`: it stores the parent path exactly as
walked — no canonicalization happens anywhere in the function. -/
def findProjectsGo (excluded_dirs : List String) (exclude_hidden : Bool)
    (analyze_ok : Path → Bool) : List Path → List Path → List Path
  | [], _ => []
  | p :: rest, processed =>
    if is_excluded_path p excluded_dirs exclude_hidden then
      findProjectsGo excluded_dirs exclude_hidden analyze_ok rest processed
    else if p.getLast? = some "Cargo.toml" then
      -- project_dir = path.parent(): the manifest entry's parent path
      if p.dropLast ∈ processed then
        findProjectsGo excluded_dirs exclude_hidden analyze_ok rest processed
      else if analyze_ok p.dropLast then
        p.dropLast ::
          findProjectsGo excluded_dirs exclude_hidden analyze_ok rest (p.dropLast :: processed)
      else
        findProjectsGo excluded_dirs exclude_hidden analyze_ok rest (p.dropLast :: processed)
    else findProjectsGo excluded_dirs exclude_hidden analyze_ok rest processed

/-- scanner.rs: `find_rust_projects`, as the list of project roots found. -/
def find_rust_projects (entries : List Path) (excluded_dirs : List String)
    (exclude_hidden : Bool) (analyze_ok : Path → Bool) : List Path :=
  findProjectsGo excluded_dirs exclude_hidden analyze_ok entries []

/-- A canonicalization under which the two walked parent directories alias
the same target (as with two symlinked paths resolving to one directory):
everything canonicalizes to `a`. -/
def canonAlias : Path → Path := fun _ => ["a"]

/-- C2 counterexample: `processed_paths` stores the parent path exactly as
walked, so two manifest entries whose parents differ as raw paths but
canonicalize to the same path produce two Project records — the scan does
not return each distinct canonical project root at most once. -/
theorem scan_dedup_counterexample :
    find_rust_projects [["a", "Cargo.toml"], ["b", "Cargo.toml"]] [] false (fun _ => true) =
      [["a"], ["b"]] ∧
    canonAlias ["a"] = canonAlias ["b"] ∧
    ¬ ((find_rust_projects [["a", "Cargo.toml"], ["b", "Cargo.toml"]] [] false
        (fun _ => true)).map canonAlias).Nodup := by
  refine ⟨by decide, by decide, by decide⟩

lemma findProjectsGo_not_mem (excluded_dirs : List String) (exclude_hidden : Bool)
    (analyze_ok : Path → Bool) :
    ∀ entries processed d,
      d ∈ findProjectsGo excluded_dirs exclude_hidden analyze_ok entries processed →
        d ∉ processed := by
  intro entries
  induction entries with
  | nil => intro processed d hd; cases hd
  | cons p rest ih =>
    intro processed d hd
    rw [findProjectsGo] at hd
    split at hd
    · exact ih processed d hd
    · split at hd
      · split at hd
        · exact ih processed d hd
        · split at hd
          · rcases List.mem_cons.mp hd with h | h
            · subst h; assumption
            · intro hmem
              exact ih _ d h (List.mem_cons_of_mem _ hmem)
          · intro hmem
            exact ih _ d hd (List.mem_cons_of_mem _ hmem)
      · exact ih processed d hd

lemma findProjectsGo_nodup (excluded_dirs : List String) (exclude_hidden : Bool)
    (analyze_ok : Path → Bool) :
    ∀ entries processed,
      (findProjectsGo excluded_dirs exclude_hidden analyze_ok entries processed).Nodup := by
  intro entries
  induction entries with
  | nil => intro processed; rw [findProjectsGo]; exact List.nodup_nil
  | cons p rest ih =>
    intro processed
    rw [findProjectsGo]
    split
    · exact ih processed
    · split
      · split
        · exact ih processed
        · split
          · refine List.Nodup.cons ?_ (ih _)
            intro hmem
            exact findProjectsGo_not_mem excluded_dirs exclude_hidden analyze_ok rest _ _ hmem
              (List.mem_cons_self _ _)
          · exact ih _
      · exact ih processed

lemma findProjectsGo_manifest (excluded_dirs : List String) (exclude_hidden : Bool)
    (analyze_ok : Path → Bool) :
    ∀ entries processed d,
      d ∈ findProjectsGo excluded_dirs exclude_hidden analyze_ok entries processed →
        (d ++ ["Cargo.toml"]) ∈ entries ∧ analyze_ok d = true := by
  intro entries
  induction entries with
  | nil => intro processed d hd; cases hd
  | cons p rest ih =>
    intro processed d hd
    rw [findProjectsGo] at hd
    split at hd
    · obtain ⟨h1, h2⟩ := ih processed d hd
      exact ⟨List.mem_cons_of_mem _ h1, h2⟩
    · split at hd
      · split at hd
        · obtain ⟨h1, h2⟩ := ih processed d hd
          exact ⟨List.mem_cons_of_mem _ h1, h2⟩
        · split at hd
          · rename_i hexc hlast hnotmem hok
            rcases List.mem_cons.mp hd with h | h
            · subst h
              refine ⟨?_, hok⟩
              have hne : p ≠ [] := by
                intro hnil
                rw [hnil] at hlast
                exact absurd hlast (by simp)
              have hdl := List.dropLast_append_getLast hne
              rw [List.getLast?_eq_getLast p hne] at hlast
              injection hlast with hlast
              rw [hlast] at hdl
              rw [hdl]
              exact List.mem_cons_self _ _
            · obtain ⟨h1, h2⟩ := ih _ d h
              exact ⟨List.mem_cons_of_mem _ h1, h2⟩
          · obtain ⟨h1, h2⟩ := ih _ d hd
            exact ⟨List.mem_cons_of_mem _ h1, h2⟩
      · obtain ⟨h1, h2⟩ := ih processed d hd
        exact ⟨List.mem_cons_of_mem _ h1, h2⟩

/-- C2 (amended).  Deduplication is by the raw walked parent path, not a
canonicalized one: `find_rust_projects` returns each distinct walked parent
path at most once (the result list has no duplicates), and every returned
root is the parent of a walked manifest entry that analyzed successfully.
Parents that differ as walked paths produce separate records even when they
canonicalize to the same directory (see the counterexample). -/
theorem scan_dedup_raw_path :
    (∀ entries excluded_dirs exclude_hidden analyze_ok,
      (find_rust_projects entries excluded_dirs exclude_hidden analyze_ok).Nodup) ∧
    (∀ entries excluded_dirs exclude_hidden analyze_ok d,
      d ∈ find_rust_projects entries excluded_dirs exclude_hidden analyze_ok →
        (d ++ ["Cargo.toml"]) ∈ entries ∧ analyze_ok d = true) := by
  constructor
  · intro entries excluded_dirs exclude_hidden analyze_ok
    exact findProjectsGo_nodup excluded_dirs exclude_hidden analyze_ok entries []
  · intro entries excluded_dirs exclude_hidden analyze_ok d hd
    exact findProjectsGo_manifest excluded_dirs exclude_hidden analyze_ok entries [] d hd

/-- C2 witness: the second conjunct applied at a concrete one-entry walk. -/
theorem scan_dedup_raw_path_witness :
    (["proj"] ++ ["Cargo.toml"]) ∈ [["proj", "Cargo.toml"]] ∧
      (fun _ : Path => true) ["proj"] = true :=
  scan_dedup_raw_path.2 [["proj", "Cargo.toml"]] [] false (fun _ => true) ["proj"] (by decide)

lemma calcDirSizeGo_ok : ∀ (entries : List WalkFileEntry) (acc : Nat),
    (∀ e ∈ entries, e.is_file = true → e.metadata ≠ .error ()) →
    calcDirSizeGo entries acc = .ok (acc + sumFileSizes entries) := by
  intro entries
  induction entries with
  | nil => intro acc _; simp [calcDirSizeGo, sumFileSizes]
  | cons e rest ih =>
    intro acc h
    rw [calcDirSizeGo]
    by_cases hf : e.is_file = true
    · rw [if_pos hf]
      cases hm : e.metadata with
      | error u =>
        cases u
        exact absurd hm (h e (List.mem_cons_self _ _) hf)
      | ok len =>
        show calcDirSizeGo rest (acc + len) = _
        rw [ih (acc + len) (fun x hx => h x (List.mem_cons_of_mem _ hx))]
        simp only [sumFileSizes, hf, if_true, hm]
        rw [Nat.add_assoc]
        rfl
    · rw [if_neg hf]
      rw [ih acc (fun x hx => h x (List.mem_cons_of_mem _ hx))]
      rw [Bool.not_eq_true] at hf
      simp [sumFileSizes, hf]

lemma calcDirSizeGo_error : ∀ (entries : List WalkFileEntry) (acc : Nat)
    (e : WalkFileEntry), e ∈ entries → e.is_file = true → e.metadata = .error () →
    calcDirSizeGo entries acc = .error () := by
  intro entries
  induction entries with
  | nil => intro acc e he; cases he
  | cons x rest ih =>
    intro acc e he hf hm
    rw [calcDirSizeGo]
    by_cases hxf : x.is_file = true
    · rw [if_pos hxf]
      cases hxm : x.metadata with
      | error u => cases u; rfl
      | ok len =>
        rcases List.mem_cons.mp he with h | h
        · subst h; rw [hm] at hxm; cases hxm
        · exact ih (acc + len) e h hf hm
    · rw [if_neg hxf]
      rcases List.mem_cons.mp he with h | h
      · subst h; exact absurd hf hxf
      · exact ih acc e h hf hm

lemma findProjectsGo_drop (excluded_dirs : List String) (exclude_hidden : Bool)
    (analyze_ok : Path → Bool) :
    ∀ entries processed d, analyze_ok d = false →
      d ∉ findProjectsGo excluded_dirs exclude_hidden analyze_ok entries processed := by
  intro entries
  induction entries with
  | nil => intro processed d _ hd; cases hd
  | cons p rest ih =>
    intro processed d hok hd
    rw [findProjectsGo] at hd
    split at hd
    · exact ih processed d hok hd
    · split at hd
      · split at hd
        · exact ih processed d hok hd
        · split at hd
          · rename_i hpo
            rcases List.mem_cons.mp hd with h | h
            · subst h; rw [hok] at hpo; cases hpo
            · exact ih _ d hok h
          · exact ih _ d hok hd
      · exact ih processed d hok hd

/-- The concrete C3 failing input: a project whose target directory exists
but whose target walk yields a regular file with unreadable metadata. -/
def exSizeErrInput : AnalyzeInput :=
  { dir := ["p"]
    manifest := .ok []
    target_name := "target"
    target_exists := true
    target_walk := [⟨true, .error ()⟩]
    target_entries := []
    lock_file := false
    last_modified := none
    include_cargo_cache := false
    cargo_cache_size := .ok 0 }

/-- C3 counterexample: a regular-file entry with unreadable metadata makes
`calculate_dir_size` return an error rather than treating the entry as
zero-size, and such an error on the build-output subtree makes
`analyze_rust_project` fail, so the scan drops the project from the result
set instead of keeping it with size zero. -/
theorem dir_size_error_counterexample :
    calculate_dir_size [⟨true, Except.error ()⟩] = .error () ∧
    analyze_rust_project exSizeErrInput = .error () ∧
    find_rust_projects [["p", "Cargo.toml"]] [] false
      (fun _ => (analyze_rust_project exSizeErrInput).toOption.isSome) = [] := by
  refine ⟨by decide, by decide, by decide⟩

/-- C3 (amended).  Entries the walk itself fails to yield are skipped and
contribute zero (the walk continues past them), and when every yielded
regular-file entry has readable metadata the size computation returns the
sum over the regular files; but a metadata read failure on a yielded
regular-file entry aborts `calculate_dir_size` with an error, such an error
on the build-output subtree makes `analyze_rust_project` fail, and a
project whose analysis fails is dropped from the scan's result set rather
than kept with size zero. -/
theorem dir_size_error_spec :
    (∀ raw1 raw2, walkOk (raw1 ++ .error () :: raw2) = walkOk (raw1 ++ raw2)) ∧
    (∀ entries, (∀ e ∈ entries, e.is_file = true → e.metadata ≠ .error ()) →
      calculate_dir_size entries = .ok (sumFileSizes entries)) ∧
    (∀ entries e, e ∈ entries → e.is_file = true → e.metadata = .error () →
      calculate_dir_size entries = .error ()) ∧
    (∀ inp, inp.target_exists = true →
      calculate_dir_size inp.target_walk = .error () →
      analyze_rust_project inp = .error ()) ∧
    (∀ entries excluded_dirs exclude_hidden analyze_ok d, analyze_ok d = false →
      d ∉ find_rust_projects entries excluded_dirs exclude_hidden analyze_ok) := by
  refine ⟨?_, ?_, ?_, ?_, ?_⟩
  · intro raw1 raw2
    simp [walkOk, List.filterMap_append, List.filterMap_cons, Except.toOption]
  · intro entries h
    rw [calculate_dir_size, calcDirSizeGo_ok entries 0 h, Nat.zero_add]
  · intro entries e he hf hm
    exact calcDirSizeGo_error entries 0 e he hf hm
  · intro inp hte hcalc
    cases hm : inp.manifest with
    | error u =>
      cases u
      unfold analyze_rust_project
      rw [hm]
      rfl
    | ok content =>
      unfold analyze_rust_project
      rw [hm, hte, hcalc]
      rfl
  · intro entries excluded_dirs exclude_hidden analyze_ok d hok
    exact findProjectsGo_drop excluded_dirs exclude_hidden analyze_ok entries [] d hok

/-- C3 witness: the theorem's conjuncts applied at concrete walks — a
readable two-entry walk, a walk with an unreadable file, the failing
analysis input, and a scan whose single candidate fails analysis. -/
theorem dir_size_error_spec_witness :
    walkOk ([.ok ⟨true, .ok 7⟩] ++ .error () :: [.ok ⟨false, .ok 1⟩]) =
      walkOk ([.ok ⟨true, .ok 7⟩] ++ [.ok ⟨false, .ok 1⟩]) ∧
    calculate_dir_size [⟨true, .ok 7⟩, ⟨false, .error ()⟩] =
      .ok (sumFileSizes [⟨true, .ok 7⟩, ⟨false, .error ()⟩]) ∧
    calculate_dir_size [⟨false, .ok 1⟩, ⟨true, .error ()⟩] = .error () ∧
    analyze_rust_project exSizeErrInput = .error () ∧
    ["p"] ∉ find_rust_projects [["p", "Cargo.toml"]] [] false (fun _ => false) :=
  ⟨dir_size_error_spec.1 [.ok ⟨true, .ok 7⟩] [.ok ⟨false, .ok 1⟩],
   dir_size_error_spec.2.1 [⟨true, .ok 7⟩, ⟨false, .error ()⟩] (by decide),
   dir_size_error_spec.2.2.1 [⟨false, .ok 1⟩, ⟨true, .error ()⟩] ⟨true, .error ()⟩
     (by decide) rfl rfl,
   dir_size_error_spec.2.2.2.1 exSizeErrInput rfl (by decide),
   dir_size_error_spec.2.2.2.2 [["p", "Cargo.toml"]] [] false (fun _ => false) ["p"] rfl⟩

/-- A filesystem tree for the folder scanner (utils/search.rs): a node is a
regular file (with its byte size) or a directory with children.  Metadata
reads succeed on this model tree; read failures only curtail descent or the
size sum and are orthogonal to the pruning claims. -/
inductive FsNode where
  | file (fname : String) (fsize : Nat)
  | dir (dname : String) (children : List FsNode)

/-- The node's own name — the last component of the walked path
(`normalized_path.split(slash).last()` in `traverse`). -/
def FsNode.name : FsNode → String
  | .file n _ => n
  | .dir n _ => n

/-- search.rs: `struct Folder`. -/
structure Folder where
  path : Path
  size : Option Nat
  deleting : Bool
deriving DecidableEq

/-- search.rs: `MAX_DEPTH`. -/
def MAX_DEPTH : Nat := 10

mutual

/-- search.rs: `calculate_folder_size` — `fs::read_dir` on a non-directory
fails; a directory's size sums its file children and the recursive sizes of
its subdirectories, a failed recursive call counting as zero
(`unwrap_or(0)`). -/
def calculate_folder_size : FsNode → Except Unit Nat
  | .file _ _ => .error ()
  | .dir _ children => folderSizeChildren children

def folderSizeChildren : List FsNode → Except Unit Nat
  | [] => .ok 0
  | .file _ sz :: rest => (folderSizeChildren rest).map (fun acc => sz + acc)
  | .dir n cs :: rest =>
    (folderSizeChildren rest).map
      (fun acc => ((calculate_folder_size (.dir n cs)).toOption.getD 0) + acc)

end

mutual

/-- search.rs: the recursive `traverse` of `find_target_folders` (lines
15-48): a node whose own name is ignored is pruned outright (checked before
the target test); a node named `target_folder` is recorded — with its size
pre-computed, `none` when the size computation fails — and not descended
into; any other directory is descended into while `count < MAX_DEPTH`. -/
def traverse (pfx : Path) (target_folder : String) (ignored_folders : List String)
    (count : Nat) : FsNode → List Folder
  | .file fname fsize =>
    if fname ∈ ignored_folders then []
    else if fname = target_folder then
      [{ path := pfx ++ [fname],
         size := (calculate_folder_size (.file fname fsize)).toOption,
         deleting := false }]
    else []
  | .dir dname children =>
    if dname ∈ ignored_folders then []
    else if dname = target_folder then
      [{ path := pfx ++ [dname],
         size := (calculate_folder_size (.dir dname children)).toOption,
         deleting := false }]
    else if count < MAX_DEPTH then
      traverseChildren (pfx ++ [dname]) target_folder ignored_folders (count + 1) children
    else []

def traverseChildren (pfx : Path) (target_folder : String)
    (ignored_folders : List String) (count : Nat) : List FsNode → List Folder
  | [] => []
  | c :: rest =>
    traverse pfx target_folder ignored_folders count c ++
      traverseChildren pfx target_folder ignored_folders count rest

end

/-- search.rs: `find_target_folders` — the traversal starts at the given
start node with depth 0.  `start_parent` is the component path of the start
node's parent directory; those leading components are never inspected. -/
def find_target_folders (start_parent : Path) (start : FsNode)
    (target_folder : String) (ignored_folders : List String) : List Folder :=
  traverse start_parent target_folder ignored_folders 0 start

/-- C6 counterexample: with an ignored name (`cache`) occurring as a
component of the start path's parent, the scan returns a Folder whose path
contains an ignored name as a path component — only names at or below the
start node are ever checked. -/
theorem find_target_folders_counterexample :
    find_target_folders ["home", "cache"] (.dir "work" [.dir "target" []])
        "target" ["cache"] =
      [{ path := ["home", "cache", "work", "target"], size := some 0, deleting := false }] ∧
    ∃ f ∈ find_target_folders ["home", "cache"] (.dir "work" [.dir "target" []])
        "target" ["cache"], ∃ c ∈ f.path, c ∈ (["cache"] : List String) := by
  refine ⟨by decide, by decide⟩

lemma getLast?_cons_of_ne_nil {α : Type} (a : α) (l : List α) (h : l ≠ []) :
    (a :: l).getLast? = l.getLast? := by
  cases l with
  | nil => exact absurd rfl h
  | cons b t => rfl

lemma dropLast_cons_of_ne_nil {α : Type} (a : α) (l : List α) (h : l ≠ []) :
    (a :: l).dropLast = a :: l.dropLast := by
  cases l with
  | nil => exact absurd rfl h
  | cons b t => rfl

mutual

theorem traverse_path_spec : ∀ (pfx : Path) (tgt : String) (ign : List String)
    (count : Nat) (node : FsNode) (f : Folder),
    f ∈ traverse pfx tgt ign count node →
    ∃ rel, f.path = pfx ++ rel ∧ rel ≠ [] ∧ rel.getLast? = some tgt ∧
      (∀ c ∈ rel, c ∉ ign) ∧ (∀ c ∈ rel.dropLast, c ≠ tgt) := by
  intro pfx tgt ign count node f hf
  cases node with
  | file fname fsize =>
    rw [traverse] at hf
    split at hf
    · cases hf
    · split at hf
      · rename_i hnig htg
        rcases List.mem_cons.mp hf with h | h
        · subst h
          refine ⟨[fname], rfl, by simp, by simp [htg], ?_, by simp⟩
          intro c hc
          rw [List.mem_singleton] at hc
          subst hc
          exact hnig
        · cases h
      · cases hf
  | dir dname children =>
    rw [traverse] at hf
    split at hf
    · cases hf
    · split at hf
      · rename_i hnig htg
        rcases List.mem_cons.mp hf with h | h
        · subst h
          refine ⟨[dname], rfl, by simp, by simp [htg], ?_, by simp⟩
          intro c hc
          rw [List.mem_singleton] at hc
          subst hc
          exact hnig
        · cases h
      · split at hf
        · rename_i hnig hntg hdepth
          obtain ⟨rel, hpath, hne, hlast, hign, hmid⟩ :=
            traverseChildren_path_spec (pfx ++ [dname]) tgt ign (count + 1) children f hf
          refine ⟨dname :: rel, ?_, by simp, ?_, ?_, ?_⟩
          · rw [hpath, List.append_assoc]
            rfl
          · rw [getLast?_cons_of_ne_nil dname rel hne]
            exact hlast
          · intro c hc
            rcases List.mem_cons.mp hc with h | h
            · subst h; exact hnig
            · exact hign c h
          · rw [dropLast_cons_of_ne_nil dname rel hne]
            intro c hc
            rcases List.mem_cons.mp hc with h | h
            · subst h; exact hntg
            · exact hmid c h
        · cases hf

theorem traverseChildren_path_spec : ∀ (pfx : Path) (tgt : String) (ign : List String)
    (count : Nat) (nodes : List FsNode) (f : Folder),
    f ∈ traverseChildren pfx tgt ign count nodes →
    ∃ rel, f.path = pfx ++ rel ∧ rel ≠ [] ∧ rel.getLast? = some tgt ∧
      (∀ c ∈ rel, c ∉ ign) ∧ (∀ c ∈ rel.dropLast, c ≠ tgt) := by
  intro pfx tgt ign count nodes f hf
  cases nodes with
  | nil => rw [traverseChildren] at hf; cases hf
  | cons c rest =>
    rw [traverseChildren] at hf
    rcases List.mem_append.mp hf with h | h
    · exact traverse_path_spec pfx tgt ign count c f h
    · exact traverseChildren_path_spec pfx tgt ign count rest f h

end

/-- C6 (amended).  Every Folder returned by `find_target_folders` lies at a
nonempty component path below the start directory's parent whose last
component is the target name; no component of that relative path (the start
node's own name included) is an ignored name, and nothing strictly below a
found target is returned.  Names in the start path's parent components are
not checked — see the counterexample.  Further, a node whose own name is
ignored is pruned without being added (independent of whether it equals the
target), and a directory named like the target is recorded exactly once
with its pre-computed recursive size and is not descended into. -/
theorem find_target_folders_spec :
    (∀ start_parent start target_folder ignored_folders f,
      f ∈ find_target_folders start_parent start target_folder ignored_folders →
      ∃ rel, f.path = start_parent ++ rel ∧ rel ≠ [] ∧
        rel.getLast? = some target_folder ∧
        (∀ c ∈ rel, c ∉ ignored_folders) ∧ (∀ c ∈ rel.dropLast, c ≠ target_folder)) ∧
    (∀ pfx tgt ign count node, FsNode.name node ∈ ign →
      traverse pfx tgt ign count node = []) ∧
    (∀ pfx tgt ign count dname children, dname ∉ ign → dname = tgt →
      traverse pfx tgt ign count (.dir dname children) =
        [{ path := pfx ++ [dname],
           size := (calculate_folder_size (.dir dname children)).toOption,
           deleting := false }]) := by
  refine ⟨?_, ?_, ?_⟩
  · intro start_parent start target_folder ignored_folders f hf
    exact traverse_path_spec start_parent target_folder ignored_folders 0 start f hf
  · intro pfx tgt ign count node h
    cases node with
    | file fname fsize =>
      simp only [FsNode.name] at h
      rw [traverse, if_pos h]
    | dir dname children =>
      simp only [FsNode.name] at h
      rw [traverse, if_pos h]
  · intro pfx tgt ign count dname children hnig htg
    rw [traverse, if_neg hnig, if_pos htg]

/-- C6 witness: the theorem applied at a concrete tree — a found target two
levels down, a pruned directory whose ignored name equals the target name,
and a recorded target directory with its pre-computed size. -/
theorem find_target_folders_spec_witness :
    (∃ rel, (Folder.mk ["root", "work", "target"] (some 0) false).path = ["root"] ++ rel ∧
      rel ≠ [] ∧ rel.getLast? = some "target" ∧
      (∀ c ∈ rel, c ∉ (["node_modules"] : List String)) ∧
      (∀ c ∈ rel.dropLast, c ≠ "target")) ∧
    traverse [] "target" ["target"] 0 (.dir "target" [.file "a.o" 3]) = [] ∧
    traverse ["root"] "target" [] 0 (.dir "target" [.file "a.o" 3]) =
      [{ path := ["root", "target"],
         size := (calculate_folder_size (.dir "target" [.file "a.o" 3])).toOption,
         deleting := false }] :=
  ⟨find_target_folders_spec.1 ["root"] (.dir "work" [.dir "target" []]) "target"
      ["node_modules"] (Folder.mk ["root", "work", "target"] (some 0) false) (by decide),
   find_target_folders_spec.2.1 [] "target" ["target"] 0 (.dir "target" [.file "a.o" 3])
      (by decide),
   find_target_folders_spec.2.2 ["root"] "target" [] 0 "target" [.file "a.o" 3]
      (by decide) rfl⟩

/-- The on-disk state the deletion operations touch: the set of directory
paths present, and the set of directories whose recursive removal fails
(for example for permissions).  `remove_dir_all` removes a whole subtree,
so removal drops every present path extending the removed one. -/
structure Fs where
  dirs : List Path
  failing : List Path
deriving DecidableEq

/-- utils.rs: `remove_directory` (lines 29-42) — under dry-run, log and
simulate latency only, no mutation and always `Ok`; otherwise
`fs::remove_dir_all` when the path exists (removing the subtree), and `Ok`
without touching anything when it does not. -/
def remove_directory (fs : Fs) (path : Path) (dry_run : Bool) : Except Unit Fs :=
  if dry_run then .ok fs
  else if path ∈ fs.dirs then
    if path ∈ fs.failing then .error ()
    else .ok { fs with dirs := fs.dirs.filter (fun d => ! path.isPrefixOf d) }
  else .ok fs

/-- ui.rs: the `InteractiveUI` fields the deletion operations read and
write, together with the filesystem they mutate. -/
structure UIState where
  projects : List RustProject
  selected_index : Nat
  total_deleted_size : Nat
  deleted_count : Nat
  fs : Fs
deriving DecidableEq

/-- The record mutation applied to a deleted project:
`target_dir = None; target_size = 0; build_artifacts.clear()`. -/
def clearedRecord (p : RustProject) : RustProject :=
  { p with target_dir := none, target_size := 0, build_artifacts := [] }

/-- ui.rs: `delete_selected_project` (lines 215-242).  `size_before` is
`project.total_cleanable_size()`; on success and not dry-run the running
counters grow by it and the selected record's target fields are zeroed.
(The confirmation block at lines 220-224 is an empty placeholder and has no
effect.) -/
def delete_selected_project (dry_run : Bool) (st : UIState) : Except Unit UIState :=
  match st.projects.get? st.selected_index with
  | none => .ok st
  | some project =>
    match project.target_dir with
    | none => .ok st
    | some target_dir =>
      match remove_directory st.fs target_dir dry_run with
      | .error e => .error e
      | .ok fs2 =>
        if dry_run then .ok { st with fs := fs2 }
        else
          .ok { st with
            fs := fs2
            total_deleted_size := st.total_deleted_size + project.total_cleanable_size
            deleted_count := st.deleted_count + 1
            projects := st.projects.set st.selected_index (clearedRecord project) }

/-- The outcome of the `delete_all_projects` loop: the records after the
iteration, the filesystem, the locally accumulated freed bytes and count,
and whether the loop ran to completion. -/
structure DeleteAllOut where
  projects : List RustProject
  fs : Fs
  total_deleted : Nat
  count_deleted : Nat
  res : Except Unit Unit
deriving DecidableEq

/-- ui.rs: the `for project in &mut self.projects` loop of
`delete_all_projects` (lines 248-263).  Records without a target path are
skipped unchanged; per deleted record the loop accumulates
`project.target_size` (not the total cleanable size) locally.  `?` on a
failed removal returns early: the failing record and every later record are
left untouched and the local accumulators die with the early return. -/
def deleteAllLoop (dry_run : Bool) (fs : Fs) : List RustProject → DeleteAllOut
  | [] => ⟨[], fs, 0, 0, .ok ()⟩
  | p :: rest =>
    match p.target_dir with
    | none =>
      let out := deleteAllLoop dry_run fs rest
      ⟨p :: out.projects, out.fs, out.total_deleted, out.count_deleted, out.res⟩
    | some target_dir =>
      match remove_directory fs target_dir dry_run with
      | .error e => ⟨p :: rest, fs, 0, 0, .error e⟩
      | .ok fs2 =>
        if dry_run then
          let out := deleteAllLoop dry_run fs2 rest
          ⟨p :: out.projects, out.fs, out.total_deleted, out.count_deleted, out.res⟩
        else
          let out := deleteAllLoop dry_run fs2 rest
          ⟨clearedRecord p :: out.projects, out.fs,
           p.target_size + out.total_deleted, 1 + out.count_deleted, out.res⟩

/-- ui.rs: `delete_all_projects` (lines 244-269) — run the loop; only on
normal completion are the local accumulators added to the running counters
(the `?` return skips those additions). -/
def delete_all_projects (dry_run : Bool) (st : UIState) : UIState × Except Unit Unit :=
  match (deleteAllLoop dry_run st.fs st.projects).res with
  | .error e =>
    ({ st with
        projects := (deleteAllLoop dry_run st.fs st.projects).projects
        fs := (deleteAllLoop dry_run st.fs st.projects).fs }, .error e)
  | .ok _ =>
    ({ st with
        projects := (deleteAllLoop dry_run st.fs st.projects).projects
        fs := (deleteAllLoop dry_run st.fs st.projects).fs
        total_deleted_size :=
          st.total_deleted_size + (deleteAllLoop dry_run st.fs st.projects).total_deleted
        deleted_count :=
          st.deleted_count + (deleteAllLoop dry_run st.fs st.projects).count_deleted }, .ok ())

/-- C8.  Under dry-run, `delete_selected_project` returns the state
entirely unchanged: no filesystem content is removed and
`total_deleted_size`, `deleted_count`, the cursor, and every field of every
Project record keep their values (only logging and simulated latency
happen). -/
theorem delete_selected_dry_run_frame (st : UIState) :
    delete_selected_project true st = .ok st := by
  unfold delete_selected_project
  cases st.projects.get? st.selected_index with
  | none => rfl
  | some project =>
    dsimp only []
    cases project.target_dir with
    | none => rfl
    | some td => rfl

lemma isPrefixOf_self {α : Type} [BEq α] [LawfulBEq α] (l : List α) :
    l.isPrefixOf l = true := by
  induction l with
  | nil => rfl
  | cons a t ih => simp [List.isPrefixOf, ih]

/-- C1 (amended).  A non-dry-run `delete_selected_project` on a selected
record with a present, removable target directory removes that directory
(and its subtree) from disk, replaces the record by its cleared form
(target path `none`, size 0, artifacts empty), leaves every other record
unchanged, increments the deletion counter by one, and increases
`total_deleted_size` by the pre-deletion **total cleanable size** —
build-output size plus dependency-cache size — which equals the
build-output size exactly when the record's cache size is zero. -/
theorem delete_selected_spec (st : UIState) (project : RustProject) (target_dir : Path)
    (hp : st.projects.get? st.selected_index = some project)
    (htd : project.target_dir = some target_dir)
    (hex : target_dir ∈ st.fs.dirs)
    (hok : target_dir ∉ st.fs.failing) :
    delete_selected_project false st = .ok
      { st with
        fs := { st.fs with dirs := st.fs.dirs.filter (fun d => ! target_dir.isPrefixOf d) }
        total_deleted_size := st.total_deleted_size + project.total_cleanable_size
        deleted_count := st.deleted_count + 1
        projects := st.projects.set st.selected_index (clearedRecord project) } ∧
    target_dir ∉ st.fs.dirs.filter (fun d => ! target_dir.isPrefixOf d) ∧
    (st.projects.set st.selected_index (clearedRecord project)).get? st.selected_index =
      some (clearedRecord project) ∧
    ∀ j, st.selected_index ≠ j →
      (st.projects.set st.selected_index (clearedRecord project)).get? j =
        st.projects.get? j := by
  refine ⟨?_, ?_, ?_, ?_⟩
  · unfold delete_selected_project
    rw [hp]
    dsimp only []
    rw [htd]
    dsimp only []
    unfold remove_directory
    rw [if_neg Bool.false_ne_true, if_pos hex, if_neg hok]
    dsimp only []
    rw [if_neg Bool.false_ne_true]
  · intro hmem
    rw [List.mem_filter] at hmem
    obtain ⟨-, habs⟩ := hmem
    rw [isPrefixOf_self] at habs
    cases habs
  · rw [List.get?_set_eq, hp]
    rfl
  · intro j hj
    exact List.get?_set_ne _ _ hj

/-- The concrete C1/C7 input: one project whose target directory exists and
whose cargo-cache size is nonzero (cache inclusion was on at scan time). -/
def exProjectC1 : RustProject :=
  { path := ["p"], name := "p", target_dir := some ["p", "target"], target_size := 3,
    last_modified := none, workspace_root := false, has_lock_file := false,
    dependencies_count := 0, build_artifacts := [], cargo_cache_size := 7 }

/-- State holding `exProjectC1` with its target directory on disk. -/
def exStateC1 : UIState :=
  { projects := [exProjectC1], selected_index := 0, total_deleted_size := 0,
    deleted_count := 0, fs := { dirs := [["p", "target"]], failing := [] } }

/-- C1 counterexample: with a nonzero cache size (7) the freed-size counter
grows by `total_cleanable_size` = 3 + 7 = 10, not by the pre-deletion
build-output size 3 as the claim states. -/
theorem delete_selected_counterexample :
    (delete_selected_project false exStateC1).toOption.map UIState.total_deleted_size =
      some 10 ∧
    ¬ (delete_selected_project false exStateC1).toOption.map UIState.total_deleted_size =
      some (exStateC1.total_deleted_size + exProjectC1.target_size) := by
  refine ⟨by decide, by decide⟩

/-- A cache-free variant used as the concrete witness state. -/
def exProjectW : RustProject :=
  { path := ["q"], name := "q", target_dir := some ["q", "target"], target_size := 3,
    last_modified := none, workspace_root := false, has_lock_file := false,
    dependencies_count := 0, build_artifacts := [], cargo_cache_size := 0 }

/-- State holding `exProjectW` with its target directory on disk. -/
def exStateW : UIState :=
  { projects := [exProjectW], selected_index := 0, total_deleted_size := 0,
    deleted_count := 0,
    fs := { dirs := [["q"], ["q", "target"], ["q", "target", "debug"]], failing := [] } }

/-- C1 witness: the theorem applied at `exStateW`, plus its frame part at
the out-of-range index 1. -/
theorem delete_selected_spec_witness :
    delete_selected_project false exStateW = .ok
      { exStateW with
        fs := { exStateW.fs with
          dirs := exStateW.fs.dirs.filter
            (fun d => ! (["q", "target"] : Path).isPrefixOf d) }
        total_deleted_size := exStateW.total_deleted_size + exProjectW.total_cleanable_size
        deleted_count := exStateW.deleted_count + 1
        projects := exStateW.projects.set exStateW.selected_index (clearedRecord exProjectW) } ∧
    (exStateW.projects.set exStateW.selected_index (clearedRecord exProjectW)).get? 1 =
      exStateW.projects.get? 1 :=
  ⟨(delete_selected_spec exStateW exProjectW ["q", "target"] rfl rfl (by decide)
      (by decide)).1,
   (delete_selected_spec exStateW exProjectW ["q", "target"] rfl rfl (by decide)
      (by decide)).2.2.2 1 (by decide)⟩

/-- A record kept unchanged by `delete_all_projects` when its target is
absent, or cleared when present. -/
def clearIfTarget (p : RustProject) : RustProject :=
  match p.target_dir with
  | some _ => clearedRecord p
  | none => p

/-- The per-batch freed total `delete_all_projects` accumulates: the sum of
`target_size` over the records with a present target path. -/
def sumTargetSizes : List RustProject → Nat
  | [] => 0
  | p :: rest =>
    (match p.target_dir with | some _ => p.target_size | none => 0) + sumTargetSizes rest

/-- The number of records with a present target path. -/
def countTargets : List RustProject → Nat
  | [] => 0
  | p :: rest =>
    (match p.target_dir with | some _ => 1 | none => 0) + countTargets rest

lemma deleteAllLoop_ok : ∀ (ps : List RustProject) (fs : Fs),
    (deleteAllLoop false fs ps).res = .ok () →
    (deleteAllLoop false fs ps).projects = ps.map clearIfTarget ∧
    (deleteAllLoop false fs ps).total_deleted = sumTargetSizes ps ∧
    (deleteAllLoop false fs ps).count_deleted = countTargets ps := by
  intro ps
  induction ps with
  | nil => intro fs _; exact ⟨rfl, rfl, rfl⟩
  | cons p rest ih =>
    intro fs hres
    cases htd : p.target_dir with
    | none =>
      simp only [deleteAllLoop, htd] at hres ⊢
      obtain ⟨h1, h2, h3⟩ := ih fs hres
      rw [h1, h2, h3]
      simp [clearIfTarget, sumTargetSizes, countTargets, htd]
    | some target_dir =>
      cases hrem : remove_directory fs target_dir false with
      | error e =>
        simp only [deleteAllLoop, htd, hrem] at hres
        cases hres
      | ok fs2 =>
        simp only [deleteAllLoop, htd, hrem, Bool.false_eq_true, if_false] at hres ⊢
        obtain ⟨h1, h2, h3⟩ := ih fs2 hres
        rw [h1, h2, h3]
        simp [clearIfTarget, sumTargetSizes, countTargets, htd]

lemma deleteAllLoop_error : ∀ (ps : List RustProject) (fs : Fs),
    (deleteAllLoop false fs ps).res = .error () →
    ∃ i, i < ps.length ∧
      (deleteAllLoop false fs ps).projects = (ps.take i).map clearIfTarget ++ ps.drop i := by
  intro ps
  induction ps with
  | nil => intro fs hres; cases hres
  | cons p rest ih =>
    intro fs hres
    cases htd : p.target_dir with
    | none =>
      simp only [deleteAllLoop, htd] at hres ⊢
      obtain ⟨i, hi, hproj⟩ := ih fs hres
      refine ⟨i + 1, by simpa using hi, ?_⟩
      rw [hproj]
      simp [clearIfTarget, htd]
    | some target_dir =>
      cases hrem : remove_directory fs target_dir false with
      | error e =>
        simp only [deleteAllLoop, htd, hrem] at hres ⊢
        exact ⟨0, by simp, by simp⟩
      | ok fs2 =>
        simp only [deleteAllLoop, htd, hrem, Bool.false_eq_true, if_false] at hres ⊢
        obtain ⟨i, hi, hproj⟩ := ih fs2 hres
        refine ⟨i + 1, by simpa using hi, ?_⟩
        rw [hproj]
        simp [clearIfTarget, htd]

/-- C7 (amended).  Non-dry-run `delete_all_projects` iterates every record
with a present build-output path in order, applying the same record
mutation as `delete_selected_project` but accumulating each record's
build-output size (`target_size`), not its total cleanable size.  On full
success every targeted record is cleared and the counters grow by the batch
totals; when one removal fails the error is propagated (not collected), no
record at or after the failing one is mutated, and — the accumulators dying
with the early return — the running counters do not change at all.  The
cursor is untouched either way. -/
theorem delete_all_spec (st : UIState) :
    ((delete_all_projects false st).2 = .ok () →
      (delete_all_projects false st).1.projects = st.projects.map clearIfTarget ∧
      (delete_all_projects false st).1.total_deleted_size =
        st.total_deleted_size + sumTargetSizes st.projects ∧
      (delete_all_projects false st).1.deleted_count =
        st.deleted_count + countTargets st.projects) ∧
    ((delete_all_projects false st).2 = .error () →
      (delete_all_projects false st).1.total_deleted_size = st.total_deleted_size ∧
      (delete_all_projects false st).1.deleted_count = st.deleted_count ∧
      ∃ i, i < st.projects.length ∧
        (delete_all_projects false st).1.projects =
          (st.projects.take i).map clearIfTarget ++ st.projects.drop i) ∧
    (delete_all_projects false st).1.selected_index = st.selected_index := by
  cases hres : (deleteAllLoop false st.fs st.projects).res with
  | error e =>
    cases e
    refine ⟨?_, ?_, ?_⟩
    · intro h
      unfold delete_all_projects at h
      rw [hres] at h
      cases h
    · intro _
      unfold delete_all_projects
      rw [hres]
      obtain ⟨i, hi, hproj⟩ := deleteAllLoop_error st.projects st.fs hres
      exact ⟨rfl, rfl, i, hi, hproj⟩
    · unfold delete_all_projects
      rw [hres]
  | ok u =>
    cases u
    refine ⟨?_, ?_, ?_⟩
    · intro _
      unfold delete_all_projects
      rw [hres]
      obtain ⟨h1, h2, h3⟩ := deleteAllLoop_ok st.projects st.fs hres
      exact ⟨h1, by rw [h2], by rw [h3]⟩
    · intro h
      unfold delete_all_projects at h
      rw [hres] at h
      cases h
    · unfold delete_all_projects
      rw [hres]

/-- C7 counterexample: on the single-record state with cache size 7,
`delete_all_projects` adds only the build-output size 3 to the freed total
while `delete_selected_project` on the same record adds 10 — the per-item
update is not the same. -/
theorem delete_all_counterexample :
    (delete_all_projects false exStateC1).1.total_deleted_size = 3 ∧
    (delete_selected_project false exStateC1).toOption.map UIState.total_deleted_size =
      some 10 ∧
    (3 : Nat) ≠ 10 := by
  refine ⟨by decide, by decide, by decide⟩

/-- A state whose only record's target directory exists but cannot be
removed. -/
def exStateFail : UIState :=
  { projects := [exProjectW], selected_index := 0, total_deleted_size := 11,
    deleted_count := 2,
    fs := { dirs := [["q", "target"]], failing := [["q", "target"]] } }

/-- C7 witness: the success case at `exStateW` and the abort case at
`exStateFail`. -/
theorem delete_all_spec_witness :
    ((delete_all_projects false exStateW).1.projects = exStateW.projects.map clearIfTarget ∧
      (delete_all_projects false exStateW).1.total_deleted_size =
        exStateW.total_deleted_size + sumTargetSizes exStateW.projects ∧
      (delete_all_projects false exStateW).1.deleted_count =
        exStateW.deleted_count + countTargets exStateW.projects) ∧
    ((delete_all_projects false exStateFail).1.total_deleted_size =
        exStateFail.total_deleted_size ∧
      (delete_all_projects false exStateFail).1.deleted_count = exStateFail.deleted_count ∧
      ∃ i, i < exStateFail.projects.length ∧
        (delete_all_projects false exStateFail).1.projects =
          (exStateFail.projects.take i).map clearIfTarget ++ exStateFail.projects.drop i) :=
  ⟨(delete_all_spec exStateW).1 (by decide),
   (delete_all_spec exStateFail).2.1 (by decide)⟩

end Rskill
